import Mathlib

set_option maxRecDepth 40000
set_option maxHeartbeats 1000000

/-!
Verification of the WhatsApp chat analyser (preprocessor.py and helper.py).

Python strings are modelled as lists of characters.  The two regular
expressions of the source are modelled operationally, following the leftmost
and lazy matching rules of the `re` module for the two concrete patterns.
pandas dataframes are modelled as lists of records, pandas column operations
as list functions, and float percentages as exact rationals with
round-half-to-even.
-/

/-- Python strings are modelled as lists of characters. -/
abbrev Str := List Char

/-- The character class of the regex token \s (its ASCII part). -/
def isWsCh (c : Char) : Bool :=
  c = ' ' || c = '\t' || c = '\n' || c = '\r' || c = '\x0b' || c = '\x0c'

/-- The character class of the regex token \d. -/
def isDigitCh (c : Char) : Bool :=
  '0' ≤ c && c ≤ '9'

/-- Character of s at index i, with NUL as the out-of-range default.  NUL is
    in none of the character classes used by the patterns below, so the
    default can never produce a spurious match. -/
def cAt (s : Str) (i : Nat) : Char := s.getD i '\x00'

/-! ## preprocessor.py: the sender/message split

The loop body of preprocess runs
  entry = re.split('([\w\W]+?):\s' , message)
on each raw message body.  Because [\w\W] is the class of all characters, a
match of the pattern is some nonempty string followed by a colon and a
whitespace character, so a match whose colon sits at index i exists exactly
when i ≥ 1 and colonWs holds at i; the lazy +? makes the leftmost match end
at the first such colon. -/

/-- Index i carries a colon immediately followed by a whitespace character:
    the colon of a match of ([\w\W]+?):\s ends there. -/
def colonWs (s : Str) (i : Nat) : Bool :=
  cAt s i = ':' && isWsCh (cAt s (i + 1))

/-- Smallest index i ≥ lo with colonWs s i, searched with explicit fuel so
    that it evaluates by kernel reduction. -/
def firstColonWsAux (s : Str) : Nat → Nat → Option Nat
  | _, 0 => none
  | i, fuel + 1 => if colonWs s i then some i else firstColonWsAux s (i + 1) fuel

/-- Smallest index i ≥ lo with colonWs s i. -/
def firstColonWs (s : Str) (lo : Nat) : Option Nat :=
  firstColonWsAux s lo (s.length - lo)

/-- re.split('([\w\W]+?):\s', s) from scan position p: when a match exists in
    the remaining text it starts at p itself (any colon-whitespace at i ≥ p+1
    yields a match anchored at p) and its colon sits at the first i ≥ p+1
    with colonWs; re.split then emits the text before the match (always empty
    here), the captured group s[p:i], and continues after the consumed
    whitespace at i+2.  Every match consumes at least three characters, so
    s.length + 1 units of fuel can never run out. -/
def reSplitSenderAux (s : Str) : Nat → Nat → List Str
  | p, 0 => [s.drop p]
  | p, fuel + 1 =>
    match firstColonWs s (p + 1) with
    | none => [s.drop p]
    | some i => [] :: (s.drop p).take (i - p) :: reSplitSenderAux s (i + 2) fuel

/-- entry = re.split('([\w\W]+?):\s' , message). -/
def reSplitSender (s : Str) : List Str := reSplitSenderAux s 0 (s.length + 1)

/-- The reserved sender value for system notifications. -/
def groupNotificationUser : Str := "group_notification".data

/-- The body of the extraction loop of preprocess for one raw message body:
    if entry[1:] is nonempty the record gets (entry[1], entry[2]), otherwise
    the group-notification sentinel together with the whole body entry[0]. -/
def processBody (s : Str) : Str × Str :=
  let entry := reSplitSender s
  if 1 < entry.length then (entry.getD 1 [], entry.getD 2 [])
  else (groupNotificationUser, entry.getD 0 [])

/-! ## preprocessor.py: the timestamp header pattern

pattern = r'\d{2}/\d{2}/\d{2},\s\d{1,2}:\d{2}\s[ap]m\s-\s' -/

/-- Match of the suffix :\d{2}\s[ap]m\s-\s with the colon at index c. -/
def tsTailAt (s : Str) (c : Nat) : Bool :=
  cAt s c = ':' && isDigitCh (cAt s (c + 1)) && isDigitCh (cAt s (c + 2)) &&
  isWsCh (cAt s (c + 3)) && (cAt s (c + 4) = 'a' || cAt s (c + 4) = 'p') &&
  cAt s (c + 5) = 'm' && isWsCh (cAt s (c + 6)) && cAt s (c + 7) = '-' &&
  isWsCh (cAt s (c + 8))

/-- Match of the whole timestamp pattern at position q, returning the end
    position.  The greedy \d{1,2} first tries two digits for the hour and
    backtracks to one. -/
def matchTsAt (s : Str) (q : Nat) : Option Nat :=
  if isDigitCh (cAt s q) && isDigitCh (cAt s (q + 1)) && cAt s (q + 2) = '/' &&
     isDigitCh (cAt s (q + 3)) && isDigitCh (cAt s (q + 4)) && cAt s (q + 5) = '/' &&
     isDigitCh (cAt s (q + 6)) && isDigitCh (cAt s (q + 7)) && cAt s (q + 8) = ',' &&
     isWsCh (cAt s (q + 9)) && isDigitCh (cAt s (q + 10)) then
    if isDigitCh (cAt s (q + 11)) && tsTailAt s (q + 12) then some (q + 21)
    else if tsTailAt s (q + 11) then some (q + 20)
    else none
  else none

/-- Leftmost match of the timestamp pattern starting at or after q, as a
    (start, end) pair, searched with explicit fuel. -/
def findTsFromAux (s : Str) : Nat → Nat → Option (Nat × Nat)
  | _, 0 => none
  | q, fuel + 1 =>
    match matchTsAt s q with
    | some e => some (q, e)
    | none => findTsFromAux s (q + 1) fuel

/-- Leftmost match of the timestamp pattern starting at or after p. -/
def findTsFrom (s : Str) (p : Nat) : Option (Nat × Nat) :=
  findTsFromAux s p (s.length - p)

/-- messages = re.split(pattern, data): the pieces between consecutive
    matches (before the [1:]).  Every match consumes at least twenty
    characters, so s.length + 1 units of fuel can never run out. -/
def splitTsAux (s : Str) : Nat → Nat → List Str
  | p, 0 => [s.drop p]
  | p, fuel + 1 =>
    match findTsFrom s p with
    | none => [s.drop p]
    | some (q, e) => (s.drop p).take (q - p) :: splitTsAux s e fuel

/-- re.split(timestamp pattern, data). -/
def reSplitTs (s : Str) : List Str := splitTsAux s 0 (s.length + 1)

/-- dates = re.findall(pattern, data): the matched header substrings in
    order. -/
def findallTsAux (s : Str) : Nat → Nat → List Str
  | _, 0 => []
  | p, fuel + 1 =>
    match findTsFrom s p with
    | none => []
    | some (q, e) => (s.drop q).take (e - q) :: findallTsAux s e fuel

/-- re.findall(timestamp pattern, data). -/
def findallTs (s : Str) : List Str := findallTsAux s 0 (s.length + 1)

/-! ## preprocessor.py: pd.to_datetime(..., format='%d/%m/%y, %I:%M %p - ') -/

/-- A parsed timestamp (minute precision). -/
structure DateTime where
  year : Nat
  month : Nat
  day : Nat
  hour : Nat
  minute : Nat
deriving DecidableEq, Repr

/-- Numeric value of a decimal digit character. -/
def digitVal (c : Char) : Nat := c.toNat - '0'.toNat

/-- Gregorian leap year rule. -/
def isLeap (y : Nat) : Bool := y % 4 = 0 && (y % 100 ≠ 0 || y % 400 = 0)

/-- Length of a month. -/
def daysInMonth (y m : Nat) : Nat :=
  if m = 2 then (if isLeap y then 29 else 28)
  else if m = 4 || m = 6 || m = 9 || m = 11 then 30
  else 31

/-- strptime %y: 00-68 mean 2000-2068 and 69-99 mean 1969-1999. -/
def expandY2 (yy : Nat) : Nat := if yy ≤ 68 then 2000 + yy else 1900 + yy

/-- Validation and conversion performed by to_datetime: month 1-12, day
    within the month, 12-hour hour 1-12, minute below 60; %p turns the
    12-hour value into a 24-hour one.  none models the ValueError that
    aborts preprocess for the whole input. -/
def mkDateTime (d m yy h12 mi : Nat) (pm : Bool) : Option DateTime :=
  let y := expandY2 yy
  if 1 ≤ m && m ≤ 12 && 1 ≤ d && d ≤ daysInMonth y m &&
     1 ≤ h12 && h12 ≤ 12 && mi ≤ 59 then
    some { year := y, month := m, day := d,
           hour := h12 % 12 + (if pm then 12 else 0), minute := mi }
  else none

/-- The %M %p and trailing literal part of the format, after the hour and its
    colon have been consumed. -/
def parseMinTail (d m yy h12 : Nat) : Str → Option DateTime
  | n1 :: n2 :: w1 :: ap :: 'm' :: w2 :: '-' :: w3 :: [] =>
    if isDigitCh n1 && isDigitCh n2 && isWsCh w1 && (ap = 'a' || ap = 'p') &&
       isWsCh w2 && isWsCh w3 then
      mkDateTime d m yy h12 (10 * digitVal n1 + digitVal n2) (ap = 'p')
    else none
  | _ => none

/-- The %I part of the format: one digit when a colon follows immediately,
    otherwise two digits. -/
def parseHourTail (d m yy : Nat) : Str → Option DateTime
  | h1 :: ':' :: rest =>
    if isDigitCh h1 then parseMinTail d m yy (digitVal h1) rest else none
  | h1 :: h2 :: ':' :: rest =>
    if isDigitCh h1 && isDigitCh h2 then
      parseMinTail d m yy (10 * digitVal h1 + digitVal h2) rest
    else none
  | _ => none

/-- pd.to_datetime with format '%d/%m/%y, %I:%M %p - ' on one matched header
    substring (each \s of the matching pattern contributes exactly one
    whitespace character to a matched header, which is what the single
    whitespace positions here consume). -/
def parseTs : Str → Option DateTime
  | d1 :: d2 :: '/' :: m1 :: m2 :: '/' :: y1 :: y2 :: ',' :: w :: rest =>
    if isDigitCh d1 && isDigitCh d2 && isDigitCh m1 && isDigitCh m2 &&
       isDigitCh y1 && isDigitCh y2 && isWsCh w then
      parseHourTail (10 * digitVal d1 + digitVal d2)
        (10 * digitVal m1 + digitVal m2) (10 * digitVal y1 + digitVal y2) rest
    else none
  | _ => none

/-- dt.month_name(). -/
def monthName : Nat → Str
  | 1 => "January".data
  | 2 => "February".data
  | 3 => "March".data
  | 4 => "April".data
  | 5 => "May".data
  | 6 => "June".data
  | 7 => "July".data
  | 8 => "August".data
  | 9 => "September".data
  | 10 => "October".data
  | 11 => "November".data
  | 12 => "December".data
  | _ => [].map id

/-- Offsets of the Sakamoto weekday formula. -/
def sakamotoOffsets : List Nat := [0, 3, 2, 5, 0, 3, 5, 1, 4, 6, 2, 4]

/-- Day of the week of the Gregorian date y-m-d, 0 meaning Sunday. -/
def dayOfWeek (y m d : Nat) : Nat :=
  let z := if m < 3 then y - 1 else y
  (z + z / 4 + z / 400 + sakamotoOffsets.getD (m - 1) 0 + d - z / 100) % 7

/-- dt.day_name(), from the Sunday-based weekday number. -/
def weekdayName : Nat → Str
  | 0 => "Sunday".data
  | 1 => "Monday".data
  | 2 => "Tuesday".data
  | 3 => "Wednesday".data
  | 4 => "Thursday".data
  | 5 => "Friday".data
  | 6 => "Saturday".data
  | _ => [].map id

/-- One row of the dataframe returned by preprocess. -/
structure Record where
  message_date : DateTime
  year : Nat
  month_num : Nat
  month : Str
  day : Nat
  day_name : Str
  only_date : Nat × Nat × Nat
  hour : Nat
  minute : Nat
  user : Str
  message : Str
deriving DecidableEq, Repr

/-- The row built from one parsed header and the raw message body that
    follows it: the derived date columns and the (user, message) split. -/
def mkRecord (dt : DateTime) (body : Str) : Record :=
  { message_date := dt
    year := dt.year
    month_num := dt.month
    month := monthName dt.month
    day := dt.day
    day_name := weekdayName (dayOfWeek dt.year dt.month dt.day)
    only_date := (dt.year, dt.month, dt.day)
    hour := dt.hour
    minute := dt.minute
    user := (processBody body).1
    message := (processBody body).2 }

/-- preprocess(data): split on the timestamp pattern and discard the fragment
    before the first header, findall the headers, build the two-column
    dataframe (pd.DataFrame requires the columns to have equal length), parse
    every header with to_datetime (one failure aborts the whole call), then
    derive the date columns and the per-body (user, message) split. -/
def preprocess (data : Str) : Option (List Record) :=
  let messages := (reSplitTs data).drop 1
  let dates := findallTs data
  if messages.length = dates.length then
    match dates.mapM parseTs with
    | some ds => some (List.zipWith mkRecord ds messages)
    | none => none
  else none

/-! ## helper.py -/

/-- The all-senders scope value. -/
def overallScope : Str := "Overall".data

/-- The media placeholder exactly as it appears in a parsed message body. -/
def mediaOmitted : Str := "Media omitted\n".data

/-- The df = df[df['user'] == selected_user] filtering step shared by the
    aggregators. -/
def scopeDf (selected_user : Str) (df : List Record) : List Record :=
  if selected_user = overallScope then df
  else df.filter (fun r => r.user = selected_user)

/-- Python str.split() with no argument: split on runs of whitespace,
    dropping empty pieces.  The accumulator carries the current word
    reversed. -/
def pySplitWsAux : Str → Str → List Str
  | [], acc => if acc.isEmpty then [] else [acc.reverse]
  | c :: cs, acc =>
    if isWsCh c then
      if acc.isEmpty then pySplitWsAux cs [] else acc.reverse :: pySplitWsAux cs []
    else pySplitWsAux cs (c :: acc)

/-- message.split(). -/
def pySplitWs (s : Str) : List Str := pySplitWsAux s []

/-- fetch_stats(selected_user, df).  The URL detector is the third-party
    urlextract object; it enters as the parameter findUrls.  Returns
    (num_messages, number of words, num_media_messages, number of links). -/
def fetch_stats (findUrls : Str → List Str) (selected_user : Str)
    (df : List Record) : Nat × Nat × Nat × Nat :=
  let d := scopeDf selected_user df
  let words := (d.map (fun r => pySplitWs r.message)).flatten
  let num_media := (d.filter (fun r => r.message = mediaOmitted)).length
  let links := (d.map (fun r => findUrls r.message)).flatten
  (d.length, words.length, num_media, links.length)

/-- First-occurrence deduplication: the key order of a Python dict, Counter
    or pandas hash table.  Fuel-structured so that it evaluates by kernel
    reduction; the fuel is the length of the list, which only shrinks under
    filter. -/
def firstOccDedupAux {α : Type} [DecidableEq α] : Nat → List α → List α
  | 0, _ => []
  | _, [] => []
  | fuel + 1, a :: t => a :: firstOccDedupAux fuel (t.filter (fun x => x ≠ a))

/-- The distinct values of l in order of first occurrence. -/
def firstOccDedup {α : Type} [DecidableEq α] (l : List α) : List α :=
  firstOccDedupAux l.length l

/-- The descending-count comparison used to rank (value, count) pairs. -/
def countGe {α : Type} (p q : α × Nat) : Prop := q.2 ≤ p.2

instance {α : Type} : DecidableRel (@countGe α) := fun p q => Nat.decLe q.2 p.2

instance {α : Type} : IsTotal (α × Nat) countGe :=
  ⟨fun p q => Nat.le_total q.2 p.2⟩

instance {α : Type} : IsTrans (α × Nat) countGe :=
  ⟨fun _ _ _ h1 h2 => Nat.le_trans h2 h1⟩

/-- Multiplicity of u in l. -/
def countOcc {α : Type} [DecidableEq α] (u : α) (l : List α) : Nat :=
  (l.filter (fun x => x = u)).length

/-- Series.value_counts() and Counter.most_common(): each distinct value with
    its multiplicity, ranked by count with the largest first; the stable
    insertion sort keeps ties in first-occurrence order, as most_common
    does. -/
def value_counts {α : Type} [DecidableEq α] (l : List α) : List (α × Nat) :=
  List.insertionSort countGe ((firstOccDedup l).map (fun a => (a, countOcc a l)))

/-- Round half to even (the rounding of numpy and of Python round) applied to
    an exact rational. -/
def roundHE (q : ℚ) : ℤ :=
  if Int.fract q < 1 / 2 then ⌊q⌋
  else if (1 : ℚ) / 2 < Int.fract q then ⌊q⌋ + 1
  else if ⌊q⌋ % 2 = 0 then ⌊q⌋ else ⌊q⌋ + 1

/-- round(x, 2) on an exact rational. -/
def round2 (q : ℚ) : ℚ := (roundHE (q * 100) : ℚ) / 100

/-- most_busy_users(df): the five largest senders by message count, and the
    full per-sender table round((value_counts / len(df)) * 100, 2). -/
def most_busy_users (df : List Record) : List (Str × Nat) × List (Str × ℚ) :=
  (List.take 5 (value_counts (df.map (fun r => r.user))),
   (value_counts (df.map (fun r => r.user))).map
     (fun p => (p.1, round2 ((p.2 : ℚ) / (df.length : ℚ) * 100))))

/-- Series.str.cat(sep): join with a separator. -/
def joinSep (sep : Str) : List Str → Str
  | [] => []
  | [x] => x
  | x :: y :: xs => x ++ sep ++ joinSep sep (y :: xs)

/-- The ValueError message of the wordcloud library for an empty corpus. -/
def wcEmptyMsg : Str := "We need at least 1 word to plot a word cloud, got 0.".data

/-- WordCloud.generate: the third-party wordcloud library raises ValueError
    when the text it is given contains no words (its message reads: We need
    at least 1 word to plot a word cloud, got 0).  The corpora evaluated in
    this development are either empty or made of ordinary words, where
    whitespace splitting decides wordlessness exactly as the library does.  A
    successful cloud is represented by the corpus it was generated from. -/
def wcGenerate (text : Str) : Except Str Str :=
  if (pySplitWs text).isEmpty then Except.error wcEmptyMsg
  else Except.ok text

/-- create_wordcloud(selected_user, df): drop the media placeholder rows,
    join the message column with single spaces and generate the cloud. -/
def create_wordcloud (selected_user : Str) (df : List Record) :
    Except Str Str :=
  let d := scopeDf selected_user df
  let temp := d.filter (fun r => r.message ≠ mediaOmitted)
  wcGenerate (joinSep (" ".data) (temp.map (fun r => r.message)))

/-- The emoji list of most_common_emoji: every character of every scoped
    message that lies in the emoji.EMOJI_DATA membership set (the set is the
    parameter emojiData), in record order. -/
def emojiScan (emojiData : Char → Bool) (selected_user : Str)
    (df : List Record) : List Char :=
  ((scopeDf selected_user df).map (fun r => r.message.filter emojiData)).flatten

/-- most_common_emoji(selected_user, df): the scanned emoji characters
    counted and ranked most common first (the DataFrame rename only labels
    the two columns). -/
def most_common_emoji (emojiData : Char → Bool) (selected_user : Str)
    (df : List Record) : List (Char × Nat) :=
  value_counts (emojiScan emojiData selected_user df)

/-- A monthly timeline row: the three group keys, the message count and the
    composite chart label. -/
structure TimelineRow where
  year : Nat
  month_num : Nat
  month : Str
  message : Nat
  time : Str
deriving DecidableEq, Repr

/-- The grouping key of monthly_timeline. -/
def monthKey (r : Record) : Nat × Nat × Str := (r.year, r.month_num, r.month)

/-- The ascending lexicographic order on group keys used by pandas groupby
    (sort=True): year, then month_num, then the month string. -/
def monthKeyLe (k1 k2 : Nat × Nat × Str) : Prop :=
  k1.1 < k2.1 ∨ (k1.1 = k2.1 ∧
    (k1.2.1 < k2.2.1 ∨ (k1.2.1 = k2.2.1 ∧ k1.2.2 ≤ k2.2.2)))

instance : DecidableRel monthKeyLe := fun k1 k2 => by
  unfold monthKeyLe; infer_instance

instance : IsTotal (Nat × Nat × Str) monthKeyLe := by
  constructor
  intro a b
  rcases Nat.lt_trichotomy a.1 b.1 with h | h | h
  · exact Or.inl (Or.inl h)
  · rcases Nat.lt_trichotomy a.2.1 b.2.1 with h2 | h2 | h2
    · exact Or.inl (Or.inr ⟨h, Or.inl h2⟩)
    · rcases le_total a.2.2 b.2.2 with h3 | h3
      · exact Or.inl (Or.inr ⟨h, Or.inr ⟨h2, h3⟩⟩)
      · exact Or.inr (Or.inr ⟨h.symm, Or.inr ⟨h2.symm, h3⟩⟩)
    · exact Or.inr (Or.inr ⟨h.symm, Or.inl h2⟩)
  · exact Or.inr (Or.inl h)

instance : IsTrans (Nat × Nat × Str) monthKeyLe := by
  constructor
  intro a b c hab hbc
  rcases hab with h1 | ⟨e1, h1⟩
  · rcases hbc with h2 | ⟨e2, _⟩
    · exact Or.inl (h1.trans h2)
    · exact Or.inl (e2 ▸ h1)
  · rcases hbc with h2 | ⟨e2, h2⟩
    · exact Or.inl (e1 ▸ h2)
    · refine Or.inr ⟨e1.trans e2, ?_⟩
      rcases h1 with h1 | ⟨f1, h1⟩
      · rcases h2 with h2 | ⟨f2, _⟩
        · exact Or.inl (h1.trans h2)
        · exact Or.inl (f2 ▸ h1)
      · rcases h2 with h2 | ⟨f2, h2⟩
        · exact Or.inl (f1 ▸ h2)
        · exact Or.inr ⟨f1.trans f2, h1.trans h2⟩

/-- monthly_timeline(selected_user, df):
    groupby(['year','month_num','month']).count()['message'].reset_index()
    followed by the loop appending the time label column.  One row per
    distinct key triple; pandas groupby emits the keys sorted ascending; the
    count of the never-null message column is the group size; the label is
    month + "-" + str(year). -/
def monthly_timeline (selected_user : Str) (df : List Record) :
    List TimelineRow :=
  let d := scopeDf selected_user df
  (List.insertionSort monthKeyLe (firstOccDedup (d.map monthKey))).map
    (fun k =>
      { year := k.1
        month_num := k.2.1
        month := k.2.2
        message := (d.filter (fun r => monthKey r = k)).length
        time := k.2.2 ++ ('-' :: Nat.toDigits 10 k.1) })

/-- The ascending order on calendar dates used by groupby('only_date'). -/
def dateLe (a b : Nat × Nat × Nat) : Prop :=
  a.1 < b.1 ∨ (a.1 = b.1 ∧
    (a.2.1 < b.2.1 ∨ (a.2.1 = b.2.1 ∧ a.2.2 ≤ b.2.2)))

instance : DecidableRel dateLe := fun a b => by
  unfold dateLe; infer_instance

/-- daily_timeline(selected_user, df):
    groupby('only_date').count()['message'].reset_index(). -/
def daily_timeline (selected_user : Str) (df : List Record) :
    List ((Nat × Nat × Nat) × Nat) :=
  let d := scopeDf selected_user df
  (List.insertionSort dateLe (firstOccDedup (d.map (fun r => r.only_date)))).map
    (fun k => (k, (d.filter (fun r => r.only_date = k)).length))

/-- week_activity_map(selected_user, df): df['day_name'].value_counts(). -/
def week_activity_map (selected_user : Str) (df : List Record) :
    List (Str × Nat) :=
  value_counts ((scopeDf selected_user df).map (fun r => r.day_name))

/-- month_activity_map(selected_user, df): df['month'].value_counts(). -/
def month_activity_map (selected_user : Str) (df : List Record) :
    List (Str × Nat) :=
  value_counts ((scopeDf selected_user df).map (fun r => r.month))

/-- A concrete parsed record whose message is exactly the media placeholder:
    the table [mediaRecord] is the smallest all-media table. -/
def mediaRecord : Record :=
  { message_date := { year := 2024, month := 3, day := 5, hour := 21, minute := 15 }
    year := 2024
    month_num := 3
    month := "March".data
    day := 5
    day_name := "Tuesday".data
    only_date := (2024, 3, 5)
    hour := 21
    minute := 15
    user := "Alice".data
    message := mediaOmitted }

/-- A concrete record dated the first of January of a given year, used to
    instantiate table-level theorems. -/
def recJan (y : Nat) : Record :=
  { message_date := { year := y, month := 1, day := 1, hour := 0, minute := 0 }
    year := y
    month_num := 1
    month := "January".data
    day := 1
    day_name := "Monday".data
    only_date := (y, 1, 1)
    hour := 0
    minute := 0
    user := "Alice".data
    message := "hi".data }

/-- Index of the first occurrence of x in a list (length of the list when x
    is absent): the first-occurrence rank used to state tie-breaking. -/
def firstIdx {α : Type} [DecidableEq α] (x : α) : List α → Nat
  | [] => 0
  | a :: t => if a = x then 0 else firstIdx x t + 1

/-- The sum of the percent column of most_busy_users. -/
def percentSum (df : List Record) : ℚ :=
  ((most_busy_users df).2.map (fun p => p.2)).sum

/-- A one-message record whose sender name is the decimal numeral of i, so
    different i give different senders. -/
def distinctUserRec (i : Nat) : Record :=
  { message_date := { year := 2024, month := 1, day := 1, hour := 0, minute := 0 }
    year := 2024
    month_num := 1
    month := "January".data
    day := 1
    day_name := "Monday".data
    only_date := (2024, 1, 1)
    hour := 0
    minute := 0
    user := Nat.toDigits 10 i
    message := "hi".data }

/-- A table of sixty distinct senders with one message each. -/
def sixtyTable : List Record := (List.range 60).map distinctUserRec

/-! ## Lemmas about the sender split -/

theorem colonWs_lt (s : Str) (i : Nat) (h : colonWs s i = true) :
    i + 1 < s.length := by
  rcases Nat.lt_or_ge (i + 1) s.length with hlt | hge
  · exact hlt
  · exfalso
    have hd : cAt s (i + 1) = '\x00' := by
      unfold cAt
      exact List.getD_eq_default _ _ hge
    unfold colonWs at h
    rw [hd] at h
    simp at h
    exact absurd h.2 (by decide)

theorem firstColonWsAux_some (s : Str) :
    ∀ (f lo i : Nat), firstColonWsAux s lo f = some i →
      colonWs s i = true ∧ lo ≤ i ∧ ∀ k, lo ≤ k → k < i → colonWs s k = false := by
  intro f
  induction f with
  | zero => intro lo i h; simp [firstColonWsAux] at h
  | succ f ih =>
    intro lo i h
    unfold firstColonWsAux at h
    by_cases hc : colonWs s lo = true
    · rw [if_pos hc] at h
      cases h
      exact ⟨hc, Nat.le_refl _, fun k hk1 hk2 => absurd hk2 (Nat.not_lt.mpr hk1)⟩
    · rw [if_neg hc] at h
      obtain ⟨h1, h2, h3⟩ := ih (lo + 1) i h
      refine ⟨h1, Nat.le_trans (Nat.le_succ lo) h2, fun k hk1 hk2 => ?_⟩
      rcases Nat.eq_or_lt_of_le hk1 with heq | hlt
      · subst heq; exact Bool.eq_false_iff.mpr hc
      · exact h3 k hlt hk2

theorem firstColonWsAux_none (s : Str) :
    ∀ (f lo : Nat), firstColonWsAux s lo f = none →
      ∀ k, lo ≤ k → k < lo + f → colonWs s k = false := by
  intro f
  induction f with
  | zero => intro lo _ k _ hk2; exact absurd hk2 (by omega)
  | succ f ih =>
    intro lo h k hk1 hk2
    unfold firstColonWsAux at h
    by_cases hc : colonWs s lo = true
    · rw [if_pos hc] at h; cases h
    · rw [if_neg hc] at h
      rcases Nat.eq_or_lt_of_le hk1 with heq | hlt
      · subst heq; exact Bool.eq_false_iff.mpr hc
      · exact ih (lo + 1) h k hlt (by omega)

theorem firstColonWs_some (s : Str) (lo i : Nat)
    (h : firstColonWs s lo = some i) :
    colonWs s i = true ∧ lo ≤ i ∧ ∀ k, lo ≤ k → k < i → colonWs s k = false :=
  firstColonWsAux_some s _ lo i h

theorem firstColonWs_none (s : Str) (lo : Nat) (h : firstColonWs s lo = none) :
    ∀ k, lo ≤ k → colonWs s k = false := by
  intro k hk
  rcases Nat.lt_or_ge k s.length with hlt | hge
  · exact firstColonWsAux_none s _ lo h k hk (by omega)
  · unfold colonWs cAt
    rw [List.getD_eq_default _ _ hge]
    simp

theorem reSplitSender_none (s : Str) (h : firstColonWs s 1 = none) :
    reSplitSender s = [s] := by
  unfold reSplitSender
  simp [reSplitSenderAux, h]

theorem reSplitSender_some (s : Str) (i : Nat) (h : firstColonWs s 1 = some i) :
    reSplitSender s = [] :: s.take i :: reSplitSenderAux s (i + 2) s.length := by
  unfold reSplitSender
  simp [reSplitSenderAux, h]

theorem processBody_eq_of_cons (s : Str) (a b : Str) (rest : List Str)
    (h : reSplitSender s = a :: b :: rest) :
    processBody s = (b, rest.getD 0 []) := by
  unfold processBody
  rw [h]
  rw [if_pos (by simp only [List.length_cons]; omega)]
  simp [List.getD]

theorem processBody_of_none (s : Str) (h : firstColonWs s 1 = none) :
    processBody s = (groupNotificationUser, s) := by
  unfold processBody
  rw [reSplitSender_none s h]
  simp [List.getD]

theorem processBody_of_some (s : Str) (i : Nat)
    (h : firstColonWs s 1 = some i) :
    (processBody s).1 = s.take i ∧
    (firstColonWs s (i + 3) = none → (processBody s).2 = s.drop (i + 2)) ∧
    (∀ j, firstColonWs s (i + 3) = some j → (processBody s).2 = []) := by
  obtain ⟨hcw, hi1, -⟩ := firstColonWs_some s 1 i h
  have hlen : i + 1 < s.length := colonWs_lt s i hcw
  obtain ⟨n, hn⟩ : ∃ n, s.length = n + 1 := ⟨s.length - 1, by omega⟩
  have hs := reSplitSender_some s i h
  rw [hn] at hs
  cases h2 : firstColonWs s (i + 3) with
  | none =>
    have h2' : firstColonWs s (i + 2 + 1) = none := h2
    have e1 : reSplitSenderAux s (i + 2) (n + 1) = [s.drop (i + 2)] := by
      simp [reSplitSenderAux, h2']
    rw [e1] at hs
    have hp := processBody_eq_of_cons s [] (s.take i) [s.drop (i + 2)] hs
    refine ⟨?_, fun _ => ?_, fun j hj => ?_⟩
    · rw [hp]
    · rw [hp]; simp [List.getD]
    · exact Option.noConfusion hj
  | some j =>
    have h2' : firstColonWs s (i + 2 + 1) = some j := h2
    have e1 : reSplitSenderAux s (i + 2) (n + 1) =
        [] :: (s.drop (i + 2)).take (j - (i + 2)) :: reSplitSenderAux s (j + 2) n := by
      simp [reSplitSenderAux, h2']
    rw [e1] at hs
    have hp := processBody_eq_of_cons s [] (s.take i)
      ([] :: (s.drop (i + 2)).take (j - (i + 2)) :: reSplitSenderAux s (j + 2) n) hs
    refine ⟨?_, fun hh => ?_, fun j' hj' => ?_⟩
    · rw [hp]
    · exact Option.noConfusion hh
    · rw [hp]; simp [List.getD]

/-- C1 counterexample: for the raw body "Alice: note: remember" the sender
    prefix "Alice" is found, yet the returned text is the empty string, not
    the remainder "note: remember" after the first colon-space: the second
    colon-space makes re.split produce a further group, and entry[2] is the
    empty gap between the two matches, so the claim that text is the entire
    remainder (a later colon-space changing nothing) is false. -/
theorem C1_counterexample :
    (processBody ("Alice: note: remember".data)).1 = "Alice".data ∧
    (processBody ("Alice: note: remember".data)).2 = [] ∧
    ("Alice: note: remember".data).drop 7 = "note: remember".data ∧
    (processBody ("Alice: note: remember".data)).2 ≠
      ("Alice: note: remember".data).drop 7 := by
  refine ⟨by decide, by decide, by decide, by decide⟩

/-- C1 (amended): when a sender prefix is found (first colon followed by
    whitespace at index i, at least one character in), the sender is the
    body up to i; the text is the entire remainder after the colon-space -
    newlines included - provided no second colon-plus-whitespace occurrence
    follows, but when one does occur later in the body the returned text is
    the empty string instead of the remainder.  In particular the body
    "Alice: hi\nthere" yields sender "Alice" and text "hi\nthere". -/
theorem C1_sender_text_split (s : Str) (i : Nat)
    (h : firstColonWs s 1 = some i) :
    (processBody s).1 = s.take i ∧
    (firstColonWs s (i + 3) = none → (processBody s).2 = s.drop (i + 2)) ∧
    (∀ j, firstColonWs s (i + 3) = some j → (processBody s).2 = []) :=
  processBody_of_some s i h

/-- C1 witness: the amended theorem applied to the body "Alice: hi\nthere"
    gives sender "Alice" and text "hi\nthere". -/
theorem C1_witness :
    firstColonWs ("Alice: hi\nthere".data) 1 = some 5 ∧
    (processBody ("Alice: hi\nthere".data)).1 = "Alice".data ∧
    (processBody ("Alice: hi\nthere".data)).2 = "hi\nthere".data := by
  refine ⟨by decide, ?_, ?_⟩
  · rw [(C1_sender_text_split ("Alice: hi\nthere".data) 5 (by decide)).1]; decide
  · rw [(C1_sender_text_split ("Alice: hi\nthere".data) 5 (by decide)).2.1 (by decide)]
    decide

/-- C10 counterexample: the body "group_notification: hi" contains a
    colon-space occurrence, so by the claim the sentinel must not be
    assigned; but the matched name is itself the literal string
    group_notification, so the produced sender equals the sentinel value
    while the text is "hi" rather than the whole body: the stated if and
    only if, and the claim that text is the unchanged body whenever the
    sentinel appears, both fail. -/
theorem C10_counterexample :
    (processBody ("group_notification: hi".data)).1 = groupNotificationUser ∧
    firstColonWs ("group_notification: hi".data) 1 = some 18 ∧
    (processBody ("group_notification: hi".data)).2 ≠
      "group_notification: hi".data := by
  refine ⟨by decide, by decide, by decide⟩

/-- C10 (amended): the parser takes the notification branch exactly when the
    body has no colon-plus-whitespace occurrence preceded by at least one
    character; on that branch the sender is the sentinel and the text is the
    whole body unchanged.  Consequently the produced sender equals the
    sentinel value if and only if either no such occurrence exists, or the
    matched name before the first occurrence happens to be the literal
    string group_notification itself - so sentinel-valued senders are not
    exclusively system notifications. -/
theorem C10_sentinel_iff (s : Str) :
    ((processBody s).1 = groupNotificationUser ↔
      (firstColonWs s 1 = none ∨
        ∃ i, firstColonWs s 1 = some i ∧ s.take i = groupNotificationUser)) ∧
    (firstColonWs s 1 = none → processBody s = (groupNotificationUser, s)) := by
  cases h : firstColonWs s 1 with
  | none =>
    have hp := processBody_of_none s h
    constructor
    · rw [hp]
      exact ⟨fun _ => Or.inl rfl, fun _ => rfl⟩
    · exact fun _ => hp
  | some i =>
    have h1 := (processBody_of_some s i h).1
    constructor
    · rw [h1]
      constructor
      · exact fun ht => Or.inr ⟨i, rfl, ht⟩
      · rintro (hnone | ⟨i', hi', ht⟩)
        · exact Option.noConfusion hnone
        · cases hi'
          exact ht
    · intro hn
      exact Option.noConfusion hn

/-- C10 witness: a body with no colon-space at all takes the notification
    branch: sender is the sentinel and the text is the unchanged body. -/
theorem C10_witness :
    firstColonWs ("Hello there".data) 1 = none ∧
    processBody ("Hello there".data) =
      (groupNotificationUser, "Hello there".data) :=
  ⟨by decide, (C10_sentinel_iff ("Hello there".data)).2 (by decide)⟩

/-! ## Lemmas about the timestamp split -/

theorem splitTs_findallTs_length_aux (s : Str) :
    ∀ (f p : Nat),
      (splitTsAux s p f).length = (findallTsAux s p f).length + 1 := by
  intro f
  induction f with
  | zero => intro p; simp [splitTsAux, findallTsAux]
  | succ f ih =>
    intro p
    unfold splitTsAux findallTsAux
    cases h : findTsFrom s p with
    | none => simp
    | some qe => simp [ih qe.2]

/-- The two scans of preprocess walk the very same match sequence: the split
    always has exactly one more piece than findall has matches. -/
theorem splitTs_findallTs_length (s : Str) :
    (reSplitTs s).length = (findallTs s).length + 1 :=
  splitTs_findallTs_length_aux s (s.length + 1) 0

theorem mapM_loop_of_isSome {α β : Type} (f : α → Option β) :
    ∀ (l : List α) (acc : List β), (∀ a ∈ l, (f a).isSome) →
      ∃ l', List.mapM.loop f l acc = some (acc.reverse ++ l') ∧
        l'.length = l.length ∧
        List.Forall₂ (fun a b => f a = some b) l l' := by
  intro l
  induction l with
  | nil => intro acc _; exact ⟨[], by simp [List.mapM.loop], rfl, List.Forall₂.nil⟩
  | cons a t ih =>
    intro acc h
    obtain ⟨b, hb⟩ := Option.isSome_iff_exists.mp (h a (by simp))
    obtain ⟨l', hl', hlen, hfa⟩ := ih (b :: acc) (fun x hx => h x (by simp [hx]))
    refine ⟨b :: l', ?_, by simp [hlen], List.Forall₂.cons hb hfa⟩
    have hstep : List.mapM.loop f (a :: t) acc = List.mapM.loop f t (b :: acc) := by
      simp only [List.mapM.loop, hb]
      rfl
    rw [hstep, hl']
    simp

theorem mapM_option_of_isSome {α β : Type} (f : α → Option β)
    (l : List α) (h : ∀ a ∈ l, (f a).isSome) :
    ∃ l', l.mapM f = some l' ∧ l'.length = l.length ∧
      List.Forall₂ (fun a b => f a = some b) l l' := by
  obtain ⟨l', hl', hlen, hfa⟩ := mapM_loop_of_isSome f l [] h
  exact ⟨l', by simpa [List.mapM] using hl', hlen, hfa⟩

/-- C2 counterexample: the input "00/01/24, 3:05 pm - hi" contains exactly
    one substring matching the timestamp header pattern, yet preprocess
    yields no records at all: the header fails the stricter
    to_datetime format (day 00), and that ValueError aborts the whole
    parse, so one matching header does not give one record. -/
theorem C2_counterexample :
    (findallTs ("00/01/24, 3:05 pm - hi".data)).length = 1 ∧
    preprocess ("00/01/24, 3:05 pm - hi".data) = none := by
  refine ⟨by decide, by decide⟩

/-- C2 (amended): for every input whose pattern-matched headers all parse
    under the fixed to_datetime format, preprocess succeeds and returns
    exactly one record per matched header: the records are the zip of the
    parsed headers (in match order) with the split fragments after the first
    one, so the fragment before the first header is discarded and the record
    count equals the header count, in the same order as the headers appear. -/
theorem C2_parse_count_order (s : Str)
    (h : ∀ hd ∈ findallTs s, (parseTs hd).isSome) :
    ∃ ds, (findallTs s).mapM parseTs = some ds ∧
      List.Forall₂ (fun hd d => parseTs hd = some d) (findallTs s) ds ∧
      preprocess s = some (List.zipWith mkRecord ds ((reSplitTs s).drop 1)) ∧
      (List.zipWith mkRecord ds ((reSplitTs s).drop 1)).length =
        (findallTs s).length := by
  obtain ⟨ds, hds, hlen, hfa⟩ := mapM_option_of_isSome parseTs (findallTs s) h
  have hmsgs : ((reSplitTs s).drop 1).length = (findallTs s).length := by
    have := splitTs_findallTs_length s
    simp [List.length_drop]
    omega
  refine ⟨ds, hds, hfa, ?_, ?_⟩
  · unfold preprocess
    rw [if_pos (by rw [hmsgs]), hds]
  · rw [List.length_zipWith, hlen, hmsgs]
    exact Nat.min_self _

/-- C2 witness: a two-header export parses to exactly its two records, in
    header order. -/
theorem C2_witness :
    (∀ hd ∈ findallTs ("05/03/24, 9:15 pm - Alice: hi\n06/03/24, 10:20 am - Bob: yo\n".data),
      (parseTs hd).isSome) ∧
    ∃ ds,
      (findallTs ("05/03/24, 9:15 pm - Alice: hi\n06/03/24, 10:20 am - Bob: yo\n".data)).mapM
          parseTs = some ds ∧
      List.Forall₂ (fun hd d => parseTs hd = some d)
        (findallTs ("05/03/24, 9:15 pm - Alice: hi\n06/03/24, 10:20 am - Bob: yo\n".data)) ds ∧
      preprocess ("05/03/24, 9:15 pm - Alice: hi\n06/03/24, 10:20 am - Bob: yo\n".data) =
        some (List.zipWith mkRecord ds
          ((reSplitTs ("05/03/24, 9:15 pm - Alice: hi\n06/03/24, 10:20 am - Bob: yo\n".data)).drop 1)) ∧
      (List.zipWith mkRecord ds
          ((reSplitTs ("05/03/24, 9:15 pm - Alice: hi\n06/03/24, 10:20 am - Bob: yo\n".data)).drop 1)).length =
        (findallTs ("05/03/24, 9:15 pm - Alice: hi\n06/03/24, 10:20 am - Bob: yo\n".data)).length :=
  ⟨by decide,
   C2_parse_count_order
     ("05/03/24, 9:15 pm - Alice: hi\n06/03/24, 10:20 am - Bob: yo\n".data) (by decide)⟩

/-! ## Empty-table behavior of the aggregators -/

theorem scopeDf_nil (su : Str) : scopeDf su [] = [] := by
  unfold scopeDf
  split <;> rfl

theorem value_counts_nil {α : Type} [DecidableEq α] :
    value_counts ([] : List α) = [] := rfl

/-- C3: preprocess of the empty string is the empty table, and on the empty
    table every aggregator except create_wordcloud returns a zero count or
    an empty structure, for every scope; create_wordcloud, however, hands
    the empty corpus to WordCloud.generate, which raises ValueError (We need
    at least 1 word to plot a word cloud) instead of returning an empty
    result, contradicting the claim. -/
theorem C3_empty_input :
    preprocess [] = some [] ∧
    (∀ findUrls su, fetch_stats findUrls su [] = (0, 0, 0, 0)) ∧
    most_busy_users [] = ([], []) ∧
    (∀ ed su, most_common_emoji ed su [] = []) ∧
    (∀ su, monthly_timeline su [] = []) ∧
    (∀ su, daily_timeline su [] = []) ∧
    (∀ su, week_activity_map su [] = []) ∧
    (∀ su, month_activity_map su [] = []) ∧
    (∀ su, create_wordcloud su [] = Except.error wcEmptyMsg) := by
  refine ⟨by decide, ?_, by decide, ?_, ?_, ?_, ?_, ?_, ?_⟩
  · intro findUrls su
    simp [fetch_stats, scopeDf_nil]
  · intro ed su
    simp [most_common_emoji, emojiScan, scopeDf_nil, value_counts_nil]
  · intro su
    simp [monthly_timeline, scopeDf_nil, firstOccDedup, firstOccDedupAux]
  · intro su
    simp [daily_timeline, scopeDf_nil, firstOccDedup, firstOccDedupAux]
  · intro su
    simp [week_activity_map, scopeDf_nil, value_counts_nil]
  · intro su
    simp [month_activity_map, scopeDf_nil, value_counts_nil]
  · intro su
    simp [create_wordcloud, scopeDf_nil, wcGenerate, joinSep, pySplitWs, pySplitWsAux]

/-- C4: on a table whose only record is the media placeholder the scoped
    corpus is empty after the media filter; most_common_emoji indeed returns
    an empty table (for any emoji membership set that, like EMOJI_DATA,
    contains no character of the placeholder), but create_wordcloud raises
    the ValueError of WordCloud.generate on the empty corpus instead of
    returning an explicit empty result, contradicting the claim. -/
theorem C4_empty_corpus (ed : Char → Bool)
    (hed : ∀ c ∈ mediaOmitted, ed c = false) :
    create_wordcloud overallScope [mediaRecord] = Except.error wcEmptyMsg ∧
    most_common_emoji ed overallScope [mediaRecord] = [] := by
  constructor
  · rfl
  · have hfil : mediaOmitted.filter ed = [] := by
      rw [List.filter_eq_nil_iff]
      intro c hc
      simp [hed c hc]
    simp [most_common_emoji, emojiScan, scopeDf, mediaRecord, hfil, value_counts_nil]

/-- C4 witness: with an emoji membership set containing no character of the
    placeholder, the two evaluations of the theorem hold on the all-media
    table. -/
theorem C4_witness :
    (∀ c ∈ mediaOmitted, (fun _ => false) c = false) ∧
    (create_wordcloud overallScope [mediaRecord] = Except.error wcEmptyMsg ∧
      most_common_emoji (fun _ => false) overallScope [mediaRecord] = []) :=
  ⟨by decide, C4_empty_corpus (fun _ => false) (by decide)⟩

/-! ## Lemmas about first-occurrence deduplication and value_counts -/

theorem mem_firstOccDedupAux {α : Type} [DecidableEq α] :
    ∀ (f : Nat) (l : List α), l.length ≤ f →
      ∀ x, (x ∈ firstOccDedupAux f l ↔ x ∈ l) := by
  intro f
  induction f with
  | zero =>
    intro l hl x
    have : l = [] := List.length_eq_zero.mp (Nat.le_zero.mp hl)
    subst this
    simp [firstOccDedupAux]
  | succ f ih =>
    intro l hl x
    cases l with
    | nil => simp [firstOccDedupAux]
    | cons a t =>
      have hlt : t.length ≤ f := by
        simp only [List.length_cons] at hl
        omega
      have hfl : (t.filter (fun x => x ≠ a)).length ≤ f :=
        Nat.le_trans (List.length_filter_le _ _) hlt
      simp only [firstOccDedupAux, List.mem_cons]
      rw [ih _ hfl x]
      constructor
      · rintro (rfl | hx)
        · exact Or.inl rfl
        · exact Or.inr (List.mem_of_mem_filter hx)
      · rintro (rfl | hx)
        · exact Or.inl rfl
        · by_cases hxa : x = a
          · exact Or.inl hxa
          · exact Or.inr (List.mem_filter.mpr ⟨hx, by simpa using hxa⟩)

theorem mem_firstOccDedup {α : Type} [DecidableEq α] (l : List α) (x : α) :
    x ∈ firstOccDedup l ↔ x ∈ l :=
  mem_firstOccDedupAux l.length l (Nat.le_refl _) x

theorem nodup_firstOccDedupAux {α : Type} [DecidableEq α] :
    ∀ (f : Nat) (l : List α), l.length ≤ f → (firstOccDedupAux f l).Nodup := by
  intro f
  induction f with
  | zero => intro l _; simp [firstOccDedupAux]
  | succ f ih =>
    intro l hl
    cases l with
    | nil => simp [firstOccDedupAux]
    | cons a t =>
      have hlt : t.length ≤ f := by
        simp only [List.length_cons] at hl
        omega
      have hfl : (t.filter (fun x => x ≠ a)).length ≤ f :=
        Nat.le_trans (List.length_filter_le _ _) hlt
      simp only [firstOccDedupAux]
      rw [List.nodup_cons]
      refine ⟨?_, ih _ hfl⟩
      intro hmem
      rw [mem_firstOccDedupAux f _ hfl a] at hmem
      have := (List.mem_filter.mp hmem).2
      simp at this

theorem nodup_firstOccDedup {α : Type} [DecidableEq α] (l : List α) :
    (firstOccDedup l).Nodup :=
  nodup_firstOccDedupAux l.length l (Nat.le_refl _)

theorem nodup_filter_eq_singleton {α : Type} [DecidableEq α] :
    ∀ (l : List α) (u : α), l.Nodup → u ∈ l →
      l.filter (fun x => x = u) = [u] := by
  intro l
  induction l with
  | nil => intro u _ hu; cases hu
  | cons a t ih =>
    intro u hnd hu
    rw [List.filter_cons]
    by_cases hau : a = u
    · subst hau
      rw [if_pos (by simp)]
      have hnil : t.filter (fun x => x = a) = [] := by
        rw [List.filter_eq_nil_iff]
        intro b hb
        simp only [decide_eq_true_eq]
        rintro rfl
        exact (List.nodup_cons.mp hnd).1 hb
      rw [hnil]
    · rw [if_neg (by simpa using hau)]
      refine ih u (List.nodup_cons.mp hnd).2 ?_
      rcases List.mem_cons.mp hu with rfl | h
      · exact absurd rfl hau
      · exact h

/-- In a value_counts table the row of a present value u is unique and
    carries its multiplicity. -/
theorem value_counts_filter_singleton {α : Type} [DecidableEq α]
    (l : List α) (u : α) (hu : u ∈ l) :
    (value_counts l).filter (fun p => p.1 = u) = [(u, countOcc u l)] := by
  have hperm :
      List.Perm
        ((value_counts l).filter (fun p => p.1 = u))
        (((firstOccDedup l).map (fun a => (a, countOcc a l))).filter
          (fun p => p.1 = u)) :=
    (List.perm_insertionSort countGe _).filter _
  have hrhs :
      ((firstOccDedup l).map (fun a => (a, countOcc a l))).filter
          (fun p => p.1 = u) = [(u, countOcc u l)] := by
    rw [List.filter_map]
    have hcomp :
        ((fun p : α × Nat => decide (p.1 = u)) ∘ (fun a => (a, countOcc a l))) =
          fun a => decide (a = u) := rfl
    rw [hcomp, nodup_filter_eq_singleton (firstOccDedup l) u
      (nodup_firstOccDedup l) ((mem_firstOccDedup l u).mpr hu)]
    simp
  rw [hrhs] at hperm
  exact List.perm_singleton.mp hperm

theorem scopeDf_overall (df : List Record) : scopeDf overallScope df = df := by
  simp [scopeDf]

/-- C6: whenever a table holds a record of January 2023 and one of January
    2024, monthly_timeline lists them as two distinct rows - the grouping
    key is the (year, month_num, month) triple - each carrying its own
    year-scoped count, while month_activity_map collapses the years: its
    single January row counts every January record across all years. -/
theorem C6_year_separation (df : List Record)
    (h23 : ∃ r ∈ df, monthKey r = (2023, 1, "January".data))
    (h24 : ∃ r ∈ df, monthKey r = (2024, 1, "January".data)) :
    (∃ row ∈ monthly_timeline overallScope df,
      row.year = 2023 ∧ row.month_num = 1 ∧ row.month = "January".data ∧
      row.message =
        (df.filter (fun r => monthKey r = (2023, 1, "January".data))).length) ∧
    (∃ row ∈ monthly_timeline overallScope df,
      row.year = 2024 ∧ row.month_num = 1 ∧ row.month = "January".data ∧
      row.message =
        (df.filter (fun r => monthKey r = (2024, 1, "January".data))).length) ∧
    (month_activity_map overallScope df).filter
        (fun p => p.1 = "January".data) =
      [("January".data, countOcc ("January".data) (df.map (fun r => r.month)))] := by
  obtain ⟨r23, hr23, hk23⟩ := h23
  obtain ⟨r24, hr24, hk24⟩ := h24
  have hkey : ∀ (k : Nat × Nat × Str), k ∈ df.map monthKey →
      ∃ row ∈ monthly_timeline overallScope df,
        row.year = k.1 ∧ row.month_num = k.2.1 ∧ row.month = k.2.2 ∧
        row.message = (df.filter (fun r => monthKey r = k)).length := by
    intro k hk
    have hmem : k ∈ List.insertionSort monthKeyLe
        (firstOccDedup ((scopeDf overallScope df).map monthKey)) := by
      rw [(List.perm_insertionSort monthKeyLe _).mem_iff, mem_firstOccDedup,
        scopeDf_overall]
      exact hk
    simp only [monthly_timeline, scopeDf_overall]
    rw [scopeDf_overall] at hmem
    exact ⟨_, List.mem_map_of_mem _ hmem, rfl, rfl, rfl, rfl⟩
  refine ⟨hkey _ (List.mem_map.mpr ⟨r23, hr23, hk23⟩),
          hkey _ (List.mem_map.mpr ⟨r24, hr24, hk24⟩), ?_⟩
  simp only [month_activity_map, scopeDf_overall]
  refine value_counts_filter_singleton (df.map (fun r => r.month))
    ("January".data) (List.mem_map.mpr ⟨r23, hr23, ?_⟩)
  exact congrArg (fun p : Nat × Nat × Str => p.2.2) hk23

/-- C6 witness: the two-record table with one January 2023 and one January
    2024 record shows the two separate monthly rows and the single merged
    January count. -/
theorem C6_witness :
    (∃ r ∈ [recJan 2023, recJan 2024], monthKey r = (2023, 1, "January".data)) ∧
    (∃ row ∈ monthly_timeline overallScope [recJan 2023, recJan 2024],
      row.year = 2023 ∧ row.month_num = 1 ∧ row.month = "January".data ∧
      row.message = ([recJan 2023, recJan 2024].filter
        (fun r => monthKey r = (2023, 1, "January".data))).length) ∧
    (∃ row ∈ monthly_timeline overallScope [recJan 2023, recJan 2024],
      row.year = 2024 ∧ row.month_num = 1 ∧ row.month = "January".data ∧
      row.message = ([recJan 2023, recJan 2024].filter
        (fun r => monthKey r = (2024, 1, "January".data))).length) ∧
    (month_activity_map overallScope [recJan 2023, recJan 2024]).filter
        (fun p => p.1 = "January".data) =
      [("January".data,
        countOcc ("January".data)
          ([recJan 2023, recJan 2024].map (fun r => r.month)))] := by
  refine ⟨by decide, ?_⟩
  exact C6_year_separation [recJan 2023, recJan 2024] (by decide) (by decide)

/-- C7: for every scope and table the monthly_timeline rows are sorted
    ascending by (year, month_num), and every row carries the composite
    label month name, hyphen, decimal year of that same row. -/
theorem C7_sorted_and_label (su : Str) (df : List Record) :
    List.Sorted
      (fun a b : TimelineRow =>
        a.year < b.year ∨ (a.year = b.year ∧ a.month_num ≤ b.month_num))
      (monthly_timeline su df) ∧
    ∀ row ∈ monthly_timeline su df,
      row.time = row.month ++ ('-' :: Nat.toDigits 10 row.year) := by
  constructor
  · have hs := List.sorted_insertionSort monthKeyLe
      (firstOccDedup ((scopeDf su df).map monthKey))
    simp only [monthly_timeline]
    refine hs.map _ ?_
    intro k1 k2 h
    rcases h with h | ⟨e, h2⟩
    · exact Or.inl h
    · refine Or.inr ⟨e, ?_⟩
      rcases h2 with h2 | ⟨e2, _⟩
      · exact Nat.le_of_lt h2
      · exact Nat.le_of_eq e2
  · intro row hrow
    simp only [monthly_timeline] at hrow
    obtain ⟨k, _, rfl⟩ := List.mem_map.mp hrow
    rfl

/-- C7 witness: the theorem instantiated at the all-senders scope on a
    concrete two-record table. -/
theorem C7_witness :
    List.Sorted
      (fun a b : TimelineRow =>
        a.year < b.year ∨ (a.year = b.year ∧ a.month_num ≤ b.month_num))
      (monthly_timeline overallScope [recJan 2024, recJan 2023]) ∧
    ∀ row ∈ monthly_timeline overallScope [recJan 2024, recJan 2023],
      row.time = row.month ++ ('-' :: Nat.toDigits 10 row.year) :=
  C7_sorted_and_label overallScope [recJan 2024, recJan 2023]

/-! ## Stability of the most-common ranking -/

theorem firstIdx_cons_self {α : Type} [DecidableEq α] (a : α) (t : List α) :
    firstIdx a (a :: t) = 0 := by
  simp [firstIdx]

theorem firstIdx_cons_ne {α : Type} [DecidableEq α] {a x : α} (h : a ≠ x)
    (t : List α) : firstIdx x (a :: t) = firstIdx x t + 1 := by
  simp [firstIdx, h]

theorem firstIdx_filter_lt {α : Type} [DecidableEq α] (p : α → Bool) :
    ∀ (t : List α) (x y : α), p x = true → p y = true → y ∈ t →
      firstIdx x (t.filter p) < firstIdx y (t.filter p) →
      firstIdx x t < firstIdx y t := by
  intro t
  induction t with
  | nil => intro x y _ _ hy _; cases hy
  | cons b t' ih =>
    intro x y hx hy hyt hlt
    by_cases hpb : p b = true
    · rw [List.filter_cons_of_pos hpb] at hlt
      by_cases hbx : b = x
      · subst hbx
        have hyb : y ≠ b := by
          intro h
          subst h
          simp [firstIdx] at hlt
        rw [firstIdx_cons_self, firstIdx_cons_ne (Ne.symm hyb)]
        omega
      · by_cases hby : b = y
        · subst hby
          rw [firstIdx_cons_self] at hlt
          exact absurd hlt (by omega)
        · rw [firstIdx_cons_ne hbx, firstIdx_cons_ne hby] at hlt
          rw [firstIdx_cons_ne hbx, firstIdx_cons_ne hby]
          have hyt' : y ∈ t' := by
            rcases List.mem_cons.mp hyt with rfl | h
            · exact absurd rfl hby
            · exact h
          have := ih x y hx hy hyt' (by omega)
          omega
    · have hbx : b ≠ x := fun h => by rw [h, hx] at hpb; exact hpb rfl
      have hby : b ≠ y := fun h => by rw [h, hy] at hpb; exact hpb rfl
      rw [List.filter_cons_of_neg (by simpa using hpb)] at hlt
      rw [firstIdx_cons_ne hbx, firstIdx_cons_ne hby]
      have hyt' : y ∈ t' := by
        rcases List.mem_cons.mp hyt with rfl | h
        · exact absurd rfl hby
        · exact h
      have := ih x y hx hy hyt' hlt
      omega

theorem pairwise_firstIdx_dedupAux {α : Type} [DecidableEq α] :
    ∀ (f : Nat) (l : List α), l.length ≤ f →
      List.Pairwise (fun x y => firstIdx x l < firstIdx y l)
        (firstOccDedupAux f l) := by
  intro f
  induction f with
  | zero => intro l _; simp [firstOccDedupAux]
  | succ f ih =>
    intro l hl
    cases l with
    | nil => simp [firstOccDedupAux]
    | cons a t =>
      have hlt : t.length ≤ f := by
        simp only [List.length_cons] at hl
        omega
      have hfl : (t.filter (fun x => x ≠ a)).length ≤ f :=
        Nat.le_trans (List.length_filter_le _ _) hlt
      simp only [firstOccDedupAux]
      refine List.pairwise_cons.mpr ⟨?_, ?_⟩
      · intro y hy
        have hyf := (mem_firstOccDedupAux f _ hfl y).mp hy
        have hya : y ≠ a := by
          have := (List.mem_filter.mp hyf).2
          simpa using this
        rw [firstIdx_cons_self, firstIdx_cons_ne (Ne.symm hya)]
        omega
      · refine (ih (t.filter (fun x => x ≠ a)) hfl).imp_of_mem ?_
        intro x y hx hy hxy
        have hxf := (mem_firstOccDedupAux f _ hfl x).mp hx
        have hyf := (mem_firstOccDedupAux f _ hfl y).mp hy
        have hxa : x ≠ a := by
          have := (List.mem_filter.mp hxf).2
          simpa using this
        have hya : y ≠ a := by
          have := (List.mem_filter.mp hyf).2
          simpa using this
        have ht : firstIdx x t < firstIdx y t := by
          refine firstIdx_filter_lt _ t x y ?_ ?_ (List.mem_of_mem_filter hyf) hxy
          · simpa using hxa
          · simpa using hya
        rw [firstIdx_cons_ne (Ne.symm hxa), firstIdx_cons_ne (Ne.symm hya)]
        omega

theorem orderedInsert_stable {α : Type} (rank : α × Nat → Nat) (p : α × Nat) :
    ∀ (l : List (α × Nat)),
      List.Pairwise (fun x y => y.2 ≤ x.2 ∧ (x.2 = y.2 → rank x < rank y)) l →
      (∀ q ∈ l, rank p < rank q) →
      List.Pairwise (fun x y => y.2 ≤ x.2 ∧ (x.2 = y.2 → rank x < rank y))
        (List.orderedInsert countGe p l) := by
  intro l
  induction l with
  | nil => intro _ _; exact List.pairwise_singleton _ _
  | cons b t ih =>
    intro hp hrank
    obtain ⟨hbt, htt⟩ := List.pairwise_cons.mp hp
    unfold List.orderedInsert
    by_cases hr : countGe p b
    · rw [if_pos hr]
      refine List.pairwise_cons.mpr ⟨?_, hp⟩
      intro y hy
      rcases List.mem_cons.mp hy with rfl | hyt
      · exact ⟨hr, fun _ => hrank y (List.mem_cons_self _ _)⟩
      · exact ⟨Nat.le_trans (hbt y hyt).1 hr,
          fun _ => hrank y (List.mem_cons_of_mem _ hyt)⟩
    · rw [if_neg hr]
      have hpb : p.2 < b.2 := Nat.lt_of_not_le hr
      refine List.pairwise_cons.mpr
        ⟨?_, ih htt (fun q hq => hrank q (List.mem_cons_of_mem _ hq))⟩
      intro y hy
      rcases (List.mem_orderedInsert countGe).mp hy with rfl | hyt
      · exact ⟨Nat.le_of_lt hpb, fun he => absurd he (by omega)⟩
      · exact hbt y hyt

theorem insertionSort_stable {α : Type} (rank : α × Nat → Nat) :
    ∀ (l : List (α × Nat)),
      List.Pairwise (fun x y => rank x < rank y) l →
      List.Pairwise (fun x y => y.2 ≤ x.2 ∧ (x.2 = y.2 → rank x < rank y))
        (List.insertionSort countGe l) := by
  intro l
  induction l with
  | nil => intro _; simp [List.insertionSort]
  | cons p t ih =>
    intro hp
    obtain ⟨hpt, htt⟩ := List.pairwise_cons.mp hp
    simp only [List.insertionSort]
    refine orderedInsert_stable rank p _ (ih htt) ?_
    intro q hq
    exact hpt q ((List.perm_insertionSort countGe t).mem_iff.mp hq)

/-- C8: the emoji ranking is ordered by descending count, and any two rows
    with equal counts keep the order in which their emoji characters first
    occur in the character-by-character scan of the scoped texts in record
    order: Counter preserves first-occurrence key order and most_common is a
    stable descending sort. -/
theorem C8_emoji_order (emojiData : Char → Bool) (su : Str)
    (df : List Record) :
    List.Pairwise
      (fun p q : Char × Nat =>
        q.2 ≤ p.2 ∧ (p.2 = q.2 →
          firstIdx p.1 (emojiScan emojiData su df) <
            firstIdx q.1 (emojiScan emojiData su df)))
      (most_common_emoji emojiData su df) := by
  have hdedup := pairwise_firstIdx_dedupAux
    (emojiScan emojiData su df).length (emojiScan emojiData su df)
    (Nat.le_refl _)
  have hpairs :
      List.Pairwise
        (fun p q : Char × Nat =>
          firstIdx p.1 (emojiScan emojiData su df) <
            firstIdx q.1 (emojiScan emojiData su df))
        ((firstOccDedup (emojiScan emojiData su df)).map
          (fun a => (a, countOcc a (emojiScan emojiData su df)))) := by
    refine hdedup.map _ ?_
    intro a b h
    exact h
  exact insertionSort_stable
    (fun p : Char × Nat => firstIdx p.1 (emojiScan emojiData su df)) _ hpairs

/-! ## Rounding error of the percent column -/

theorem roundHE_err (q : ℚ) : |((roundHE q : ℤ) : ℚ) - q| ≤ 1 / 2 := by
  have h0 : (0 : ℚ) ≤ Int.fract q := Int.fract_nonneg q
  have h1 : Int.fract q < 1 := Int.fract_lt_one q
  have hfl : ((⌊q⌋ : ℤ) : ℚ) - q = -(Int.fract q) := by
    rw [Int.fract]
    ring
  have hfl1 : ((⌊q⌋ + 1 : ℤ) : ℚ) - q = 1 - Int.fract q := by
    push_cast
    rw [Int.fract]
    ring
  unfold roundHE
  by_cases hc1 : Int.fract q < 1 / 2
  · rw [if_pos hc1, hfl, abs_neg, abs_of_nonneg h0]
    linarith
  · by_cases hc2 : (1 : ℚ) / 2 < Int.fract q
    · rw [if_neg hc1, if_pos hc2, hfl1, abs_of_nonneg (by linarith)]
      linarith
    · have heq : Int.fract q = 1 / 2 :=
        le_antisymm (not_lt.mp hc2) (not_lt.mp hc1)
      rw [if_neg hc1, if_neg hc2]
      by_cases hpar : ⌊q⌋ % 2 = 0
      · rw [if_pos hpar, hfl, abs_neg, abs_of_nonneg h0, heq]
      · rw [if_neg hpar, hfl1, abs_of_nonneg (by linarith), heq]
        norm_num

theorem round2_err (x : ℚ) : |round2 x - x| ≤ 1 / 200 := by
  have hd : round2 x - x = (((roundHE (x * 100) : ℤ) : ℚ) - x * 100) / 100 := by
    unfold round2
    ring
  rw [hd, abs_div, show |(100 : ℚ)| = 100 from by norm_num]
  have := roundHE_err (x * 100)
  linarith

theorem sum_round2_err (xs : List ℚ) :
    |(xs.map round2).sum - xs.sum| ≤ (xs.length : ℚ) / 200 := by
  induction xs with
  | nil => simp
  | cons x xs ih =>
    simp only [List.map_cons, List.sum_cons, List.length_cons]
    have h1 := round2_err x
    have h2 : round2 x + (xs.map round2).sum - (x + xs.sum) =
        (round2 x - x) + ((xs.map round2).sum - xs.sum) := by ring
    rw [h2]
    have h3 := abs_add (round2 x - x) ((xs.map round2).sum - xs.sum)
    have h4 : ((xs.length + 1 : ℕ) : ℚ) / 200 = 1 / 200 + (xs.length : ℚ) / 200 := by
      push_cast
      ring
    rw [h4]
    linarith

/-! ## The counts over the distinct senders add up to the table size -/

theorem countOcc_cons_self {α : Type} [DecidableEq α] (a : α) (t : List α) :
    countOcc a (a :: t) = countOcc a t + 1 := by
  simp [countOcc]

theorem countOcc_cons_ne {α : Type} [DecidableEq α] {b u : α} (h : b ≠ u)
    (t : List α) : countOcc u (b :: t) = countOcc u t := by
  simp [countOcc, List.filter_cons, h]

theorem countOcc_filter_ne {α : Type} [DecidableEq α] {u a : α} (h : u ≠ a) :
    ∀ (t : List α),
      countOcc u (t.filter (fun x => x ≠ a)) = countOcc u t := by
  intro t
  induction t with
  | nil => rfl
  | cons b t' ih =>
    by_cases hba : b = a
    · subst hba
      rw [List.filter_cons_of_neg (by simp), ih, countOcc_cons_ne (Ne.symm h)]
    · rw [List.filter_cons_of_pos (by simpa using hba)]
      by_cases hbu : b = u
      · subst hbu
        rw [countOcc_cons_self, countOcc_cons_self, ih]
      · rw [countOcc_cons_ne hbu, countOcc_cons_ne hbu, ih]

theorem countOcc_filter_ne_length {α : Type} [DecidableEq α] :
    ∀ (t : List α) (a : α),
      countOcc a t + (t.filter (fun x => x ≠ a)).length = t.length := by
  intro t
  induction t with
  | nil => intro a; rfl
  | cons b t' ih =>
    intro a
    by_cases hba : b = a
    · subst hba
      rw [countOcc_cons_self, List.filter_cons_of_neg (by simp),
        List.length_cons]
      have := ih b
      omega
    · rw [countOcc_cons_ne hba, List.filter_cons_of_pos (by simpa using hba),
        List.length_cons, List.length_cons]
      have := ih a
      omega

theorem sum_countOcc_dedupAux {α : Type} [DecidableEq α] :
    ∀ (f : Nat) (l : List α), l.length ≤ f →
      ((firstOccDedupAux f l).map (fun a => countOcc a l)).sum = l.length := by
  intro f
  induction f with
  | zero =>
    intro l hl
    have : l = [] := List.length_eq_zero.mp (Nat.le_zero.mp hl)
    subst this
    rfl
  | succ f ih =>
    intro l hl
    cases l with
    | nil => rfl
    | cons a t =>
      have hlt : t.length ≤ f := by
        simp only [List.length_cons] at hl
        omega
      have hfl : (t.filter (fun x => x ≠ a)).length ≤ f :=
        Nat.le_trans (List.length_filter_le _ _) hlt
      simp only [firstOccDedupAux, List.map_cons, List.sum_cons]
      have hmap :
          (firstOccDedupAux f (t.filter (fun x => x ≠ a))).map
              (fun u => countOcc u (a :: t)) =
            (firstOccDedupAux f (t.filter (fun x => x ≠ a))).map
              (fun u => countOcc u (t.filter (fun x => x ≠ a))) := by
        refine List.map_congr_left ?_
        intro u hu
        have huf := (mem_firstOccDedupAux f _ hfl u).mp hu
        have hua : u ≠ a := by
          have := (List.mem_filter.mp huf).2
          simpa using this
        rw [countOcc_cons_ne (Ne.symm hua), countOcc_filter_ne hua]
      rw [hmap, ih _ hfl, countOcc_cons_self, List.length_cons]
      have := countOcc_filter_ne_length t a
      omega

theorem sum_countOcc_dedup {α : Type} [DecidableEq α] (l : List α) :
    ((firstOccDedup l).map (fun a => countOcc a l)).sum = l.length :=
  sum_countOcc_dedupAux l.length l (Nat.le_refl _)

/-- C5 (amended): for every non-empty table the percent column of
    most_busy_users sums to 100 within a tolerance of 0.005 per distinct
    sender: each entry is rounded to two decimals with an error of at most
    1/200, the exact shares sum to exactly 100, and the table has one row
    per distinct sender.  The fixed tolerance 0.1 of the original claim is
    honored whenever there are at most twenty distinct senders but can be
    exceeded beyond that. -/
theorem C5_percent_sum_bound (df : List Record) (h : df ≠ []) :
    |percentSum df - 100| ≤
      ((firstOccDedup (df.map (fun r => r.user))).length : ℚ) / 200 := by
  have ht : 0 < df.length := List.length_pos.mpr h
  have htQ : (df.length : ℚ) ≠ 0 := Nat.cast_ne_zero.mpr (by omega)
  have hA : percentSum df =
      ((firstOccDedup (df.map (fun r => r.user))).map
        (fun a => round2
          ((countOcc a (df.map (fun r => r.user)) : ℚ) /
            (df.length : ℚ) * 100))).sum := by
    unfold percentSum most_busy_users value_counts
    rw [List.map_map]
    rw [((List.perm_insertionSort countGe
      ((firstOccDedup (df.map (fun r => r.user))).map
        (fun a => (a, countOcc a (df.map (fun r => r.user)))))).map _).sum_eq]
    rw [List.map_map]
    rfl
  have hsum :
      ((firstOccDedup (df.map (fun r => r.user))).map
        (fun a => (countOcc a (df.map (fun r => r.user)) : ℚ) /
          (df.length : ℚ) * 100)).sum = 100 := by
    have hfac :
        (fun a => (countOcc a (df.map (fun r => r.user)) : ℚ) /
          (df.length : ℚ) * 100) =
        (fun a => (countOcc a (df.map (fun r => r.user)) : ℚ) *
          (100 / (df.length : ℚ))) := by
      funext a
      ring
    rw [hfac, List.sum_map_mul_right]
    have hcast :
        ((firstOccDedup (df.map (fun r => r.user))).map
          (fun a => (countOcc a (df.map (fun r => r.user)) : ℚ))).sum =
        (((firstOccDedup (df.map (fun r => r.user))).map
          (fun a => countOcc a (df.map (fun r => r.user)))).sum : ℚ) := by
      rw [Nat.cast_list_sum, List.map_map]
      rfl
    rw [hcast, sum_countOcc_dedup, List.length_map]
    field_simp
  have herr := sum_round2_err
    ((firstOccDedup (df.map (fun r => r.user))).map
      (fun a => (countOcc a (df.map (fun r => r.user)) : ℚ) /
        (df.length : ℚ) * 100))
  rw [List.map_map, hsum, List.length_map] at herr
  rw [hA]
  exact herr

/-- C5 counterexample: in the sixty-sender table with one message each,
    every percent entry is round(100/60, 2) = 1.67, so the percent column
    sums to 100.20, which is not within 0.1 of 100: the claimed fixed
    tolerance fails once enough distinct senders round the same way. -/
theorem C5_counterexample :
    sixtyTable ≠ [] ∧ ¬ (|percentSum sixtyTable - 100| ≤ 1 / 10) := by
  constructor
  · decide
  · have hlen : sixtyTable.length = 60 := by decide
    have hcounts :
        (value_counts (sixtyTable.map (fun r => r.user))).map
          (fun p : Str × Nat => p.2) = List.replicate 60 1 := by decide
    have hA : percentSum sixtyTable =
        ((value_counts (sixtyTable.map (fun r => r.user))).map
          (fun p : Str × Nat =>
            round2 ((p.2 : ℚ) / (sixtyTable.length : ℚ) * 100))).sum := by
      unfold percentSum most_busy_users
      rw [List.map_map]
      rfl
    have hB :
        ((value_counts (sixtyTable.map (fun r => r.user))).map
          (fun p : Str × Nat =>
            round2 ((p.2 : ℚ) / (sixtyTable.length : ℚ) * 100))).sum =
        (((value_counts (sixtyTable.map (fun r => r.user))).map
          (fun p : Str × Nat => p.2)).map
            (fun c : Nat =>
              round2 ((c : ℚ) / (sixtyTable.length : ℚ) * 100))).sum := by
      rw [List.map_map]
      rfl
    have hfl : ⌊(500 / 3 : ℚ)⌋ = 166 := by
      rw [Int.floor_eq_iff]
      norm_num
    have hfr : Int.fract (500 / 3 : ℚ) = 2 / 3 := by
      rw [← Int.self_sub_floor, hfl]
      norm_num
    have hr : roundHE (500 / 3 : ℚ) = 167 := by
      unfold roundHE
      rw [hfr, hfl, if_neg (by norm_num), if_pos (by norm_num)]
      norm_num
    have h167 : round2 ((1 : ℚ) / 60 * 100) = 167 / 100 := by
      unfold round2
      rw [show ((1 : ℚ) / 60 * 100) * 100 = 500 / 3 from by norm_num, hr]
      norm_num
    rw [hA, hB, hcounts, hlen, List.map_replicate, List.sum_replicate]
    simp only [Nat.cast_one, Nat.cast_ofNat]
    rw [h167, nsmul_eq_mul]
    norm_num
    rw [abs_of_pos (by norm_num : (0 : ℚ) < 1 / 5)]
    norm_num

/-- C5 witness: the amended bound applied to a one-record table, where the
    single share is exactly 100 and the tolerance is 1/200. -/
theorem C5_witness :
    ([recJan 2023] : List Record) ≠ [] ∧
    |percentSum [recJan 2023] - 100| ≤
      ((firstOccDedup ([recJan 2023].map (fun r => r.user))).length : ℚ) / 200 :=
  ⟨by decide, C5_percent_sum_bound [recJan 2023] (by decide)⟩
